import Mathlib

/-!
Shallow embedding of the DNS seedlist-discovery module
(`x/mongo/driver/dns/dns.go`) of the mongo-go-driver repository.

Go strings are modelled as lists of characters (`GoStr`); the handful of
standard-library string functions the module uses (`strings.Split`,
`strings.SplitN`, `strings.FieldsFunc`, `strings.ToLower`,
`strings.TrimSuffix`, `strings.Join`, `net.SplitHostPort`,
`fmt.Sprintf("%s:%d", ...)`) are modelled explicitly below.  The two DNS
lookups (`net.LookupSRV`, `net.LookupTXT`) are external effects: each
resolution function takes the lookup outcome as an explicit argument
(`Except` value: either the resolver's error or its record list), and the
platform test `runtime.GOOS == "windows"` is an explicit boolean argument.

The test-only record-removal loop in `fetchSeedlistFromSRV` mutates the
slice while ranging over it; the model mirrors Go's slice semantics
exactly (shared backing array, captured length, in-place shift on
`append(addresses[:j], addresses[j+1:]...)`), and a run-time panic of the
slicing operation is modelled as `none`.
-/

/-- A Go string, modelled as its list of characters.  All inputs handled by
this module are hostnames and DNS record texts, for which Go's byte-based
indexing and the character-based model agree. -/
abbrev GoStr := List Char

/-- Characters of a Lean string literal, used to transcribe Go string
literals. -/
def gs (s : String) : GoStr := s.data

/-- Models Go `strings.Split(s, sep)` for a one-character separator `sep`,
generalised to an arbitrary character predicate: splits at every separator
character and keeps empty fields, always returning at least one field. -/
def stringsSplitOnPred (p : Char → Bool) : GoStr → List GoStr
  | [] => [[]]
  | c :: cs =>
    if p c then [] :: stringsSplitOnPred p cs
    else
      match stringsSplitOnPred p cs with
      | [] => [[c]]
      | f :: rest => (c :: f) :: rest

/-- Models Go `strings.Split(s, sep)` with the one-character separator
`sep` (the module only splits on `"."` and `","`). -/
def stringsSplit (s : GoStr) (sep : Char) : List GoStr :=
  stringsSplitOnPred (fun c => c == sep) s

/-- Models Go `strings.SplitN(s, sep, 2)` with a one-character separator:
splits at the first occurrence of `sep` only, so the result has one field
(no separator present) or exactly two. -/
def stringsSplitN2 (s : GoStr) (sep : Char) : List GoStr :=
  match s with
  | [] => [[]]
  | c :: cs =>
    if c == sep then [[], cs]
    else
      match stringsSplitN2 cs sep with
      | [] => [[c]]
      | f :: rest => (c :: f) :: rest

/-- Models Go `strings.FieldsFunc(s, p)`: splits `s` around every run of
characters satisfying `p` and drops the empty fields. -/
def stringsFieldsFunc (s : GoStr) (p : Char → Bool) : List GoStr :=
  (stringsSplitOnPred p s).filter (fun f => !f.isEmpty)

/-- Models Go `strings.ToLower` on the ASCII range (the allow-listed TXT
option keys are ASCII; Go's full Unicode simple case mapping agrees with
this on ASCII input). -/
def stringsToLower (s : GoStr) : GoStr := s.map Char.toLower

/-- Models Go `strings.TrimSuffix(s, suffix)`: removes one trailing copy of
`suffix`, if present. -/
def stringsTrimSuffix (s suffix : GoStr) : GoStr :=
  if suffix.isSuffixOf s then s.take (s.length - suffix.length) else s

/-- Models Go `strings.Join(l, "")`: concatenation of all elements. -/
def stringsJoin (l : List GoStr) : GoStr :=
  l.foldr (fun a acc => a ++ acc) []

/-- Models Go `fmt.Sprintf("%s:%d", host, port)`. -/
def formatHostPort (host : GoStr) (port : Nat) : GoStr :=
  host ++ ':' :: Nat.toDigits 10 port

/-- Models Go `strings.HasPrefix(s, pre)`: `pre` begins `s`. -/
def goStartsWith : GoStr → GoStr → Bool
  | _, [] => true
  | [], _ :: _ => false
  | c :: cs, d :: ds => c == d && goStartsWith cs ds

/-- Models Go `strings.Contains(s, sub)`: `sub` occurs inside `s`.  Used
only to state whether an error message mentions a host or record name. -/
def goContains : GoStr → GoStr → Bool
  | [], sub => goStartsWith [] sub
  | c :: cs, sub => goStartsWith (c :: cs) sub || goContains cs sub

/-- Index of the first occurrence of `c` in `s`, if any (Go's
`byteIndex`). -/
def indexOfChar (c : Char) (s : GoStr) : Option Nat :=
  s.findIdx? (fun x => x == c)

/-- Index of the last occurrence of `c` in `s`, if any (Go's `last`
helper in `net/ipsock.go`). -/
def lastIndexOfChar (c : Char) (s : GoStr) : Option Nat :=
  match (s.reverse.findIdx? (fun x => x == c)) with
  | none => none
  | some i => some (s.length - 1 - i)

/-- Models the success condition of Go `net.SplitHostPort(hostPort)`
(`net/ipsock.go`): `true` exactly when the call returns a nil error, i.e.
when `hostPort` has `host:port` shape (the last colon separates an
optionally `[...]`-bracketed host from a trailing port part, with no stray
colons or brackets).  The module only uses the error result of
`SplitHostPort`, so only the success condition is modelled. -/
def netSplitHostPortOk (hostPort : GoStr) : Bool :=
  match lastIndexOfChar ':' hostPort with
  | none => false
  | some i =>
    if hostPort.headD ' ' == '[' then
      match indexOfChar ']' hostPort with
      | none => false
      | some e =>
        if e + 1 == hostPort.length then false
        else if e + 1 == i then
          !((hostPort.drop 1).contains '[') && !((hostPort.drop (e + 1)).contains ']')
        else false
    else
      !((hostPort.take i).contains ':') &&
        !(hostPort.contains '[') && !(hostPort.contains ']')

/-- Models `net.SRV`: an SRV record.  `Priority` and `Weight` are carried
but never used by this module; `Port` is a `uint16` value on which the
module performs no arithmetic. -/
structure SRVRecord where
  target : GoStr
  port : Nat
  priority : Nat
  weight : Nat
deriving DecidableEq

/-- Placeholder record for out-of-range reads of the modelled backing
array; the removal loop only ever reads in-range indices, so its value is
irrelevant. -/
def dfltSRV : SRVRecord := ⟨[], 0, 0, 0⟩

/-- Models the `DnsResolver` struct: test-only record mutation lists and a
test-only rescan-frequency value that this module merely stores.  The Go
fields are nil-able slices; a nil slice and an empty one behave
identically in `fetchSeedlistFromSRV` (appending nothing, removing
nothing), so both are modelled as the empty list. -/
structure DnsResolver where
  RecordsToAdd : List SRVRecord
  RecordsToRemove : List SRVRecord
  TestingRescanFrequencyMS : Nat

/-- The match condition of the removal loop:
`removeAddr.Target == addr.Target && removeAddr.Port == addr.Port`. -/
def srvMatch (removeAddr addr : SRVRecord) : Bool :=
  removeAddr.target == addr.target && removeAddr.port == addr.port

/-- One iteration of the inner removal loop
`for j, addr := range addresses` at index `j`.  The state is the shared
backing array (always of the original length) paired with the current
slice length; `addr` is read from the backing array at `j` (Go's captured
slice shares the backing array, so shifted elements are visible).  On a
match, `addresses = append(addresses[:j], addresses[j+1:]...)` shifts the
elements `j+1 .. curLen-1` left by one inside the backing array and
shortens the slice; if `j + 1 > curLen` this slicing panics in Go,
modelled as `none`. -/
def removeScanStep (removeAddr : SRVRecord) (st : Option (List SRVRecord × Nat))
    (j : Nat) : Option (List SRVRecord × Nat) :=
  match st with
  | none => none
  | some (backing, curLen) =>
    if srvMatch removeAddr (backing.getD j dfltSRV) then
      if j + 1 ≤ curLen then
        some (backing.take j ++ (backing.drop (j + 1)).take (curLen - 1 - j) ++
                backing.drop (curLen - 1),
              curLen - 1)
      else none
    else some (backing, curLen)

/-- The inner removal loop for one entry of `RecordsToRemove`: ranges over
the indices `0 .. len-1` of the slice as captured at loop entry. -/
def removeOneAddr (removeAddr : SRVRecord) (st : List SRVRecord × Nat) :
    Option (List SRVRecord × Nat) :=
  (List.range st.2).foldl (removeScanStep removeAddr) (some st)

/-- The outer removal loop `for _, removeAddr := range d.RecordsToRemove`,
applied to the address list `addresses` (already extended by
`RecordsToAdd`); returns the final slice contents, or `none` if an
iteration panicked. -/
def applyRemovals (recordsToRemove : List SRVRecord) (addresses : List SRVRecord) :
    Option (List SRVRecord) :=
  (recordsToRemove.foldl
      (fun st removeAddr => st.bind (removeOneAddr removeAddr))
      (some (addresses, addresses.length))).map
    (fun s => s.1.take s.2)

/-- The comparison loop of `validateSRVResult`:
`for ix, label := range inputDomainSuffix` compares
`inputDomainSuffix[ix]` with `recordDomainSuffix[ix]` (the two lists have
equal length at the call site, by the offset arithmetic). -/
def srvSuffixLoopOK (inputDomainSuffix recordDomainSuffix : List GoStr) : Bool :=
  (List.range inputDomainSuffix.length).all
    (fun ix => inputDomainSuffix.getD ix [] == recordDomainSuffix.getD ix [])

/-- Models `validateSRVResult(recordFromSRV, inputHostName)`: the
domain-suffix security check. -/
def validateSRVResult (recordFromSRV inputHostName : GoStr) : Except GoStr Unit :=
  let separatedInputDomain := stringsSplit inputHostName '.'
  let separatedRecord := stringsSplit recordFromSRV '.'
  if separatedRecord.length < 2 then
    .error (gs "DNS name must contain at least 2 labels")
  else if separatedRecord.length < separatedInputDomain.length then
    .error (gs "Domain suffix from SRV record not matched input domain")
  else
    if srvSuffixLoopOK (separatedInputDomain.drop 1)
        (separatedRecord.drop
          (separatedRecord.length - (separatedInputDomain.length - 1))) then
      .ok ()
    else
      .error (gs "Domain suffix from SRV record not matched input domain")

/-- The final loop of `fetchSeedlistFromSRV`: trims one trailing `'.'`
from each record's target, validates it against the discovery host, and
formats it as `"target:port"`; the first validation error aborts the whole
loop with that error. -/
def srvParseLoop (host : GoStr) : List SRVRecord → Except GoStr (List GoStr)
  | [] => .ok []
  | address :: rest =>
    let trimmedAddressTarget := stringsTrimSuffix address.target (gs ".")
    match validateSRVResult trimmedAddressTarget host with
    | .error e => .error e
    | .ok _ =>
      match srvParseLoop host rest with
      | .error e => .error e
      | .ok tail => .ok (formatHostPort trimmedAddressTarget address.port :: tail)

/-- Models `fetchSeedlistFromSRV(host)`.  `srvLookup` is the outcome of
`net.LookupSRV("mongodb", "tcp", host)` (resolver error, or the returned
address list).  The overall result is `none` if the test-only removal loop
panicked, otherwise the function's `([]string, error)` result. -/
def fetchSeedlistFromSRV (d : DnsResolver) (host : GoStr)
    (srvLookup : Except GoStr (List SRVRecord)) :
    Option (Except GoStr (List GoStr)) :=
  if netSplitHostPortOk host then
    some (.error (gs "URI with srv must not include a port number"))
  else
    match srvLookup with
    | .error e => some (.error e)
    | .ok addresses =>
      match applyRemovals d.RecordsToRemove (addresses ++ d.RecordsToAdd) with
      | none => none
      | some addresses2 => some (srvParseLoop host addresses2)

/-- Models `ResolveHostFromSrvRecords(host)`: rejects comma-separated host
lists, then delegates to the SRV fetch. -/
def ResolveHostFromSrvRecords (d : DnsResolver) (host : GoStr)
    (srvLookup : Except GoStr (List SRVRecord)) :
    Option (Except GoStr (List GoStr)) :=
  let parsedHosts := stringsSplit host ','
  if parsedHosts.length ≠ 1 then
    some (.error (gs "URI with SRV must include one and only one hostname"))
  else fetchSeedlistFromSRV d (parsedHosts.headD []) srvLookup

/-- The `allowedTXTOptions` set (a two-entry Go map, modelled as the list
of its keys). -/
def allowedTXTOptions : List GoStr := [gs "authsource", gs "replicaset"]

/-- Models `validateTXTResult(paramsFromTXT)`: each `key=value` token must
split in two at its first `'='` and have an allow-listed lower-cased key;
the first offending token aborts the loop with its error. -/
def validateTXTResult (paramsFromTXT : List GoStr) : Except GoStr Unit :=
  match paramsFromTXT with
  | [] => .ok ()
  | param :: rest =>
    let kv := stringsSplitN2 param '='
    if kv.length ≠ 2 then .error (gs "Invalid TXT record")
    else if allowedTXTOptions.contains (stringsToLower (kv.headD [])) then
      validateTXTResult rest
    else
      .error (gs "Cannot specify option '" ++ kv.headD [] ++ gs "' in TXT record")

/-- The TXT record list after the error-ignoring lookup and the
platform-specific concatenation step: `net.LookupTXT`'s error is discarded
(a failed lookup yields a nil record list), and on Windows all returned
fragments are joined into one record (the workaround for golang.org issue
21472). -/
def txtRecordsAfterConcat (txtLookup : Except GoStr (List GoStr))
    (goosWindows : Bool) : List GoStr :=
  let recordsFromTXT := match txtLookup with | .error _ => [] | .ok rs => rs
  if goosWindows then [stringsJoin recordsFromTXT] else recordsFromTXT

/-- Models `ResolveAdditionalQueryParametersFromTxtRecords(host)`.
`txtLookup` is the outcome of `net.LookupTXT(host)`; `goosWindows` is
`runtime.GOOS == "windows"`. -/
def ResolveAdditionalQueryParametersFromTxtRecords
    (txtLookup : Except GoStr (List GoStr)) (goosWindows : Bool) :
    Except GoStr (List GoStr) :=
  let recordsFromTXT := txtRecordsAfterConcat txtLookup goosWindows
  if recordsFromTXT.length > 1 then
    .error (gs "multiple records from TXT not supported")
  else if recordsFromTXT.length > 0 then
    let connectionArgsFromTXT :=
      stringsFieldsFunc (recordsFromTXT.headD []) (fun r => r == ';' || r == '&')
    match validateTXTResult connectionArgsFromTXT with
    | .error e => .error e
    | .ok _ => .ok connectionArgsFromTXT
  else .ok []

/-! ### Helper lemmas about the string model -/

/-- Splitting always produces at least one field. -/
theorem stringsSplitOnPred_ne_nil (p : Char → Bool) (s : GoStr) :
    stringsSplitOnPred p s ≠ [] := by
  induction s with
  | nil => simp [stringsSplitOnPred]
  | cons c cs ih =>
    rw [stringsSplitOnPred]
    split
    · simp
    · split
      · simp
      · simp

/-- Splitting a string containing no separator yields that one field. -/
theorem stringsSplitOnPred_eq_single (p : Char → Bool) (s : GoStr)
    (h : ∀ c ∈ s, p c = false) : stringsSplitOnPred p s = [s] := by
  induction s with
  | nil => rfl
  | cons c cs ih =>
    have hc : p c = false := h c (by simp)
    have hrest : stringsSplitOnPred p cs = [cs] :=
      ih (fun x hx => h x (by simp [hx]))
    simp [stringsSplitOnPred, hc, hrest]

/-- The field count of a split, one character at a time. -/
theorem stringsSplitOnPred_length_cons (p : Char → Bool) (c : Char) (cs : GoStr) :
    (stringsSplitOnPred p (c :: cs)).length =
      if p c then (stringsSplitOnPred p cs).length + 1
      else (stringsSplitOnPred p cs).length := by
  rw [stringsSplitOnPred]
  by_cases hc : p c
  · simp [hc]
  · obtain ⟨f, rest, hfr⟩ : ∃ f rest, stringsSplitOnPred p cs = f :: rest := by
      cases hq : stringsSplitOnPred p cs with
      | nil => exact absurd hq (stringsSplitOnPred_ne_nil p cs)
      | cons f rest => exact ⟨f, rest, rfl⟩
    simp [hc, hfr]

/-- A split has exactly one field iff no character is a separator. -/
theorem stringsSplitOnPred_length_one_iff (p : Char → Bool) (s : GoStr) :
    (stringsSplitOnPred p s).length = 1 ↔ ∀ c ∈ s, p c = false := by
  induction s with
  | nil => simp [stringsSplitOnPred]
  | cons c cs ih =>
    rw [stringsSplitOnPred_length_cons]
    have hpos : 0 < (stringsSplitOnPred p cs).length :=
      List.length_pos.mpr (stringsSplitOnPred_ne_nil p cs)
    by_cases hc : p c
    · rw [if_pos hc]
      constructor
      · intro hlen; omega
      · intro hall; exact absurd (hall c (by simp)) (by simp [hc])
    · rw [if_neg hc]
      rw [ih]
      constructor
      · intro hall x hx
        rcases List.mem_cons.mp hx with rfl | hx'
        · exact Bool.eq_false_iff.mpr hc
        · exact hall x hx'
      · intro hall x hx; exact hall x (by simp [hx])

/-- The label-comparison loop succeeds exactly on equal lists (the two
lists have equal length at the call site). -/
theorem srvSuffixLoopOK_iff (a b : List GoStr) (h : a.length = b.length) :
    srvSuffixLoopOK a b = true ↔ a = b := by
  unfold srvSuffixLoopOK
  rw [List.all_eq_true]
  constructor
  · intro H
    refine List.ext_getElem h (fun n h1 h2 => ?_)
    have hb := H n (List.mem_range.mpr h1)
    rw [List.getD_eq_getElem a [] h1, List.getD_eq_getElem b [] h2] at hb
    exact beq_iff_eq.mp hb
  · rintro rfl n _
    simp

/-- Exact success condition of the domain-suffix validation: the record
has at least two labels, at least as many labels as the input host, and
its trailing labels (from offset `len(record) - (len(host) - 1)`) equal
the host's labels without its first label. -/
theorem validateSRVResult_ok_iff (recordFromSRV inputHostName : GoStr) :
    validateSRVResult recordFromSRV inputHostName = .ok () ↔
      2 ≤ (stringsSplit recordFromSRV '.').length ∧
      (stringsSplit inputHostName '.').length ≤ (stringsSplit recordFromSRV '.').length ∧
      (stringsSplit recordFromSRV '.').drop
          ((stringsSplit recordFromSRV '.').length -
            ((stringsSplit inputHostName '.').length - 1)) =
        (stringsSplit inputHostName '.').drop 1 := by
  unfold validateSRVResult
  by_cases h1 : (stringsSplit recordFromSRV '.').length < 2
  · rw [if_pos h1]
    constructor
    · intro hx; exact absurd hx (by simp)
    · rintro ⟨ha, -, -⟩; exact absurd ha (by omega)
  · rw [if_neg h1]
    by_cases h2 : (stringsSplit recordFromSRV '.').length <
        (stringsSplit inputHostName '.').length
    · rw [if_pos h2]
      constructor
      · intro hx; exact absurd hx (by simp)
      · rintro ⟨-, hb, -⟩; exact absurd hb (by omega)
    · rw [if_neg h2]
      have hlen : ((stringsSplit inputHostName '.').drop 1).length =
          ((stringsSplit recordFromSRV '.').drop
            ((stringsSplit recordFromSRV '.').length -
              ((stringsSplit inputHostName '.').length - 1))).length := by
        simp only [List.length_drop]
        omega
      by_cases h3 : srvSuffixLoopOK ((stringsSplit inputHostName '.').drop 1)
          ((stringsSplit recordFromSRV '.').drop
            ((stringsSplit recordFromSRV '.').length -
              ((stringsSplit inputHostName '.').length - 1))) = true
      · rw [if_pos h3]
        have heq := (srvSuffixLoopOK_iff _ _ hlen).mp h3
        exact ⟨fun _ => ⟨by omega, by omega, heq.symm⟩, fun _ => rfl⟩
      · rw [if_neg h3]
        constructor
        · intro hx; exact absurd hx (by simp)
        · rintro ⟨-, -, heq⟩
          exact absurd ((srvSuffixLoopOK_iff _ _ hlen).mpr heq.symm) h3

/-! ### Helper lemmas about the SRV parse loop -/

/-- If the parse loop succeeds, every record validated and the output is
the in-order formatting of the records. -/
theorem srvParseLoop_eq_ok (host : GoStr) (rs : List SRVRecord) (seeds : List GoStr)
    (h : srvParseLoop host rs = .ok seeds) :
    seeds = rs.map (fun a => formatHostPort (stringsTrimSuffix a.target (gs ".")) a.port) ∧
    ∀ a ∈ rs, validateSRVResult (stringsTrimSuffix a.target (gs ".")) host = .ok () := by
  induction rs generalizing seeds with
  | nil =>
    rw [srvParseLoop] at h
    cases h
    simp
  | cons a rest ih =>
    rw [srvParseLoop] at h
    cases hv : validateSRVResult (stringsTrimSuffix a.target (gs ".")) host with
    | error e => rw [hv] at h; cases h
    | ok u =>
      cases u
      rw [hv] at h
      cases hrest : srvParseLoop host rest with
      | error e => rw [hrest] at h; cases h
      | ok tail =>
        rw [hrest] at h
        cases h
        obtain ⟨htail, hall⟩ := ih tail hrest
        refine ⟨by simp [htail], fun b hb => ?_⟩
        rcases List.mem_cons.mp hb with rfl | hb'
        · exact hv
        · exact hall b hb'

/-- If every record validates, the parse loop succeeds with the in-order
formatted list. -/
theorem srvParseLoop_eq_map (host : GoStr) (rs : List SRVRecord)
    (h : ∀ a ∈ rs, validateSRVResult (stringsTrimSuffix a.target (gs ".")) host = .ok ()) :
    srvParseLoop host rs =
      .ok (rs.map (fun a => formatHostPort (stringsTrimSuffix a.target (gs ".")) a.port)) := by
  induction rs with
  | nil => rfl
  | cons a rest ih =>
    rw [srvParseLoop]
    rw [h a (by simp)]
    rw [ih (fun b hb => h b (by simp [hb]))]
    rfl

/-- The parse loop aborts with the validation error of the first
offending record. -/
theorem srvParseLoop_first_error (host : GoStr) (pre : List SRVRecord)
    (r : SRVRecord) (post : List SRVRecord) (e : GoStr)
    (hpre : ∀ q ∈ pre, validateSRVResult (stringsTrimSuffix q.target (gs ".")) host = .ok ())
    (hr : validateSRVResult (stringsTrimSuffix r.target (gs ".")) host = .error e) :
    srvParseLoop host (pre ++ r :: post) = .error e := by
  induction pre with
  | nil =>
    rw [List.nil_append, srvParseLoop, hr]
  | cons q qs ih =>
    rw [List.cons_append, srvParseLoop, hpre q (by simp)]
    rw [ih (fun x hx => hpre x (by simp [hx]))]

/-! ### Claims -/

/-- Claim C1: for every discovery host `h` and SRV record target not a
subdomain of `parent(h)` (the host's labels minus the first label are not
a suffix of the record's labels), `validateSRVResult` rejects the record,
and a record list containing such a record makes the whole SRV parse loop
fail. -/
theorem claim_C1 :
    (∀ (h r : GoStr),
        ¬ ((stringsSplit h '.').drop 1 <:+ stringsSplit r '.') →
        ∃ e, validateSRVResult r h = .error e) ∧
    (∀ (host : GoStr) (rs : List SRVRecord) (a : SRVRecord), a ∈ rs →
        ¬ ((stringsSplit host '.').drop 1 <:+
            stringsSplit (stringsTrimSuffix a.target (gs ".")) '.') →
        ∃ e, srvParseLoop host rs = .error e) := by
  have main : ∀ (h r : GoStr),
      ¬ ((stringsSplit h '.').drop 1 <:+ stringsSplit r '.') →
      ∃ e, validateSRVResult r h = .error e := by
    intro h r hns
    cases hv : validateSRVResult r h with
    | error e => exact ⟨e, rfl⟩
    | ok u =>
      cases u
      obtain ⟨-, -, heq⟩ := (validateSRVResult_ok_iff r h).mp hv
      exact absurd (heq ▸ List.drop_suffix _ _) hns
  refine ⟨main, fun host rs a ha hns => ?_⟩
  cases hq : srvParseLoop host rs with
  | error e => exact ⟨e, rfl⟩
  | ok seeds =>
    obtain ⟨-, hall⟩ := srvParseLoop_eq_ok host rs seeds hq
    obtain ⟨e, he⟩ := main host (stringsTrimSuffix a.target (gs ".")) hns
    rw [hall a ha] at he
    cases he

/-- Witness for C1 on the spec's own example: host
`cluster0.example.com`, record target `node.evil.com`. -/
theorem claim_C1_witness :
    (¬ ((stringsSplit (gs "cluster0.example.com") '.').drop 1 <:+
        stringsSplit (gs "node.evil.com") '.')) ∧
    ∃ e, validateSRVResult (gs "node.evil.com") (gs "cluster0.example.com") = .error e :=
  ⟨by decide, claim_C1.1 (gs "cluster0.example.com") (gs "node.evil.com") (by decide)⟩

/-- Claim C2: `validateSRVResult(record, host)` succeeds iff the record
has at least two dot-separated labels, at least as many labels as the
host, and its last `len(hostLabels) - 1` labels (from offset
`len(recordLabels) - (len(hostLabels) - 1)`) equal the host's labels
without its first label; otherwise it returns an error. -/
theorem claim_C2 : ∀ (recordFromSRV inputHostName : GoStr),
    validateSRVResult recordFromSRV inputHostName = .ok () ↔
      2 ≤ (stringsSplit recordFromSRV '.').length ∧
      (stringsSplit inputHostName '.').length ≤ (stringsSplit recordFromSRV '.').length ∧
      (stringsSplit recordFromSRV '.').drop
          ((stringsSplit recordFromSRV '.').length -
            ((stringsSplit inputHostName '.').length - 1)) =
        (stringsSplit inputHostName '.').drop 1 :=
  validateSRVResult_ok_iff

/-- Witness for C2 at a concrete accepted and a concrete rejected
record. -/
theorem claim_C2_witness :
    validateSRVResult (gs "x.b.c") (gs "a.b.c") = .ok () ∧
    validateSRVResult (gs "node.evil.com") (gs "cluster0.example.com") ≠ .ok () :=
  ⟨(claim_C2 (gs "x.b.c") (gs "a.b.c")).mpr (by decide),
   fun h => by
    obtain ⟨-, -, he⟩ :=
      (claim_C2 (gs "node.evil.com") (gs "cluster0.example.com")).mp h
    exact absurd he (by decide)⟩

/-- Claim C10: a single-label discovery host (no `'.'`) enforces no
subdomain relationship at all: every record with at least two labels is
accepted. -/
theorem claim_C10 : ∀ (host target : GoStr), '.' ∉ host →
    2 ≤ (stringsSplit target '.').length →
    validateSRVResult target host = .ok () := by
  intro host target hdot hlen
  rw [validateSRVResult_ok_iff]
  have hsingle : stringsSplit host '.' = [host] := by
    apply stringsSplitOnPred_eq_single
    intro c hc
    exact beq_eq_false_iff_ne.mpr (fun he => hdot (he ▸ hc))
  rw [hsingle]
  refine ⟨hlen, ?_, ?_⟩
  · simpa using by omega
  · simp

/-- Witness for C10: host `localhost`, record target `a.b`. -/
theorem claim_C10_witness :
    validateSRVResult (gs "a.b") (gs "localhost") = .ok () :=
  claim_C10 (gs "localhost") (gs "a.b") (by decide) (by decide)

/-- Claim C5: a failed TXT lookup or an empty TXT record list yields an
empty option list and no error, on either platform; the resolver error is
never surfaced. -/
theorem claim_C5 :
    (∀ (e : GoStr) (goosWindows : Bool),
        ResolveAdditionalQueryParametersFromTxtRecords (.error e) goosWindows = .ok []) ∧
    (∀ goosWindows : Bool,
        ResolveAdditionalQueryParametersFromTxtRecords (.ok []) goosWindows = .ok []) := by
  refine ⟨fun e w => ?_, fun w => ?_⟩ <;> cases w <;> rfl

/-- Claim C6: more than one TXT record remaining after the
platform-concatenation step is a hard error, regardless of record
content. -/
theorem claim_C6 : ∀ (txtLookup : Except GoStr (List GoStr)) (goosWindows : Bool),
    1 < (txtRecordsAfterConcat txtLookup goosWindows).length →
    ResolveAdditionalQueryParametersFromTxtRecords txtLookup goosWindows =
      .error (gs "multiple records from TXT not supported") := by
  intro lk w h
  simp only [ResolveAdditionalQueryParametersFromTxtRecords]
  rw [if_pos h]

/-- Witness for C6: two distinct records on a non-Windows platform. -/
theorem claim_C6_witness :
    ResolveAdditionalQueryParametersFromTxtRecords (.ok [gs "a", gs "b"]) false =
      .error (gs "multiple records from TXT not supported") :=
  claim_C6 (.ok [gs "a", gs "b"]) false (by decide)

/-- Claim C8: `ResolveHostFromSrvRecords` fails before consulting the SRV
lookup result when the host contains a comma (multiple hostnames) or,
otherwise, when the host parses as `host:port`. -/
theorem claim_C8 :
    (∀ (d : DnsResolver) (host : GoStr) (srvLookup : Except GoStr (List SRVRecord)),
        ',' ∈ host →
        ResolveHostFromSrvRecords d host srvLookup =
          some (.error (gs "URI with SRV must include one and only one hostname"))) ∧
    (∀ (d : DnsResolver) (host : GoStr) (srvLookup : Except GoStr (List SRVRecord)),
        ',' ∉ host → netSplitHostPortOk host = true →
        ResolveHostFromSrvRecords d host srvLookup =
          some (.error (gs "URI with srv must not include a port number"))) := by
  constructor
  · intro d host lk hc
    have hne : (stringsSplit host ',').length ≠ 1 := by
      intro hlen
      have hall := (stringsSplitOnPred_length_one_iff (fun c => c == ',') host).mp hlen
      have := hall ',' hc
      simp at this
    simp [ResolveHostFromSrvRecords, hne]
  · intro d host lk hc hp
    have heq : stringsSplit host ',' = [host] := by
      apply stringsSplitOnPred_eq_single
      intro c hcc
      exact beq_eq_false_iff_ne.mpr (fun he => hc (he ▸ hcc))
    simp [ResolveHostFromSrvRecords, heq, fetchSeedlistFromSRV, hp]

/-- Witness for C8 on the spec's examples. -/
theorem claim_C8_witness :
    ResolveHostFromSrvRecords ⟨[], [], 0⟩ (gs "a.example.com,b.example.com") (.ok []) =
      some (.error (gs "URI with SRV must include one and only one hostname")) ∧
    ResolveHostFromSrvRecords ⟨[], [], 0⟩ (gs "example.com:27017") (.ok []) =
      some (.error (gs "URI with srv must not include a port number")) :=
  ⟨claim_C8.1 _ _ _ (by decide), claim_C8.2 _ _ _ (by decide) (by decide)⟩

/-- A run of valid `key=value` tokens passes through the TXT validation
loop. -/
theorem validateTXTResult_append_ok (pre rest : List GoStr)
    (hpre : ∀ q ∈ pre, (stringsSplitN2 q '=').length = 2 ∧
        allowedTXTOptions.contains (stringsToLower ((stringsSplitN2 q '=').headD [])) = true) :
    validateTXTResult (pre ++ rest) = validateTXTResult rest := by
  induction pre with
  | nil => rfl
  | cons q qs ih =>
    obtain ⟨h1, h2⟩ := hpre q (by simp)
    rw [List.cons_append, validateTXTResult]
    rw [if_neg (not_not_intro h1), if_pos h2]
    exact ih (fun x hx => hpre x (by simp [hx]))

/-- Claim C3 (amended): any single invalid record fails the entire fetch
with the first offending record's validation error, and no partial seed
list is returned.  (The error does not identify the offending record or
host; see the counterexample.) -/
theorem claim_C3 : ∀ (d : DnsResolver) (host : GoStr)
    (lookupAddrs rs pre post : List SRVRecord) (r : SRVRecord) (e : GoStr),
    netSplitHostPortOk host = false →
    applyRemovals d.RecordsToRemove (lookupAddrs ++ d.RecordsToAdd) = some rs →
    rs = pre ++ r :: post →
    (∀ q ∈ pre, validateSRVResult (stringsTrimSuffix q.target (gs ".")) host = .ok ()) →
    validateSRVResult (stringsTrimSuffix r.target (gs ".")) host = .error e →
    fetchSeedlistFromSRV d host (.ok lookupAddrs) = some (.error e) := by
  intro d host lookupAddrs rs pre post r e hport hrem hsplit hpre hr
  subst hsplit
  rw [fetchSeedlistFromSRV, if_neg (by simp [hport])]
  simp only [hrem]
  rw [srvParseLoop_first_error host pre r post e hpre hr]

/-- Counterexample to C3 as stated: the `SecurityValidation` error is a
fixed message that names neither the offending record nor the discovery
host. -/
theorem claim_C3_counterexample :
    fetchSeedlistFromSRV ⟨[], [], 0⟩ (gs "cluster0.example.com")
        (.ok [⟨gs "node.evil.com.", 27017, 0, 0⟩]) =
      some (.error (gs "Domain suffix from SRV record not matched input domain")) ∧
    goContains (gs "Domain suffix from SRV record not matched input domain")
        (gs "node.evil.com") = false ∧
    goContains (gs "Domain suffix from SRV record not matched input domain")
        (gs "cluster0.example.com") = false :=
  ⟨rfl, by decide, by decide⟩

/-- Witness for C3 at the counterexample input. -/
theorem claim_C3_witness :
    fetchSeedlistFromSRV ⟨[], [], 0⟩ (gs "cluster0.example.com")
        (.ok [⟨gs "node.evil.com.", 27017, 0, 0⟩]) =
      some (.error (gs "Domain suffix from SRV record not matched input domain")) :=
  claim_C3 ⟨[], [], 0⟩ (gs "cluster0.example.com")
    [⟨gs "node.evil.com.", 27017, 0, 0⟩]
    [⟨gs "node.evil.com.", 27017, 0, 0⟩] [] []
    ⟨gs "node.evil.com.", 27017, 0, 0⟩
    (gs "Domain suffix from SRV record not matched input domain")
    (by decide) rfl rfl (by simp) rfl

/-- Claim C9: on success the seed list is exactly the post-mutation record
list, in order, with one trailing dot stripped from each target and each
record formatted `"target:port"`, every record (test-added ones included)
having passed the suffix validation. -/
theorem claim_C9 : ∀ (d : DnsResolver) (host : GoStr)
    (lookupAddrs rs : List SRVRecord) (seeds : List GoStr),
    applyRemovals d.RecordsToRemove (lookupAddrs ++ d.RecordsToAdd) = some rs →
    fetchSeedlistFromSRV d host (.ok lookupAddrs) = some (.ok seeds) →
    seeds = rs.map (fun a => formatHostPort (stringsTrimSuffix a.target (gs ".")) a.port) ∧
    ∀ a ∈ rs, validateSRVResult (stringsTrimSuffix a.target (gs ".")) host = .ok () := by
  intro d host lookupAddrs rs seeds hrem hfetch
  by_cases hport : netSplitHostPortOk host
  · rw [fetchSeedlistFromSRV, if_pos hport] at hfetch
    simp at hfetch
  · rw [fetchSeedlistFromSRV, if_neg hport] at hfetch
    simp only [hrem] at hfetch
    rw [Option.some_inj] at hfetch
    exact srvParseLoop_eq_ok host rs seeds hfetch

/-- Witness for C9, with one real and one test-added record. -/
theorem claim_C9_witness :
    [gs "node1.example.com:27017", gs "added.example.com:27019"] =
      ([⟨gs "node1.example.com.", 27017, 0, 0⟩, ⟨gs "added.example.com", 27019, 0, 0⟩] :
          List SRVRecord).map
        (fun a => formatHostPort (stringsTrimSuffix a.target (gs ".")) a.port) ∧
    ∀ a ∈ ([⟨gs "node1.example.com.", 27017, 0, 0⟩, ⟨gs "added.example.com", 27019, 0, 0⟩] :
        List SRVRecord),
      validateSRVResult (stringsTrimSuffix a.target (gs ".")) (gs "cluster0.example.com") =
        .ok () :=
  claim_C9 ⟨[⟨gs "added.example.com", 27019, 0, 0⟩], [], 0⟩ (gs "cluster0.example.com")
    [⟨gs "node1.example.com.", 27017, 0, 0⟩]
    [⟨gs "node1.example.com.", 27017, 0, 0⟩, ⟨gs "added.example.com", 27019, 0, 0⟩]
    [gs "node1.example.com:27017", gs "added.example.com:27019"]
    rfl rfl

/-- Claim C7: the TXT validation loop succeeds iff every token splits in
exactly two at its first `'='` with an allow-listed lower-cased key; the
first offending token determines the error (a fixed message for a
missing `'='`, a message naming the key verbatim for a disallowed key);
and on success the raw tokens are returned unmodified. -/
theorem claim_C7 :
    (∀ params : List GoStr,
        validateTXTResult params = .ok () ↔
          ∀ p ∈ params, (stringsSplitN2 p '=').length = 2 ∧
            stringsToLower ((stringsSplitN2 p '=').headD []) ∈
              [gs "authsource", gs "replicaset"]) ∧
    (∀ (pre : List GoStr) (p : GoStr) (post : List GoStr),
        (∀ q ∈ pre, (stringsSplitN2 q '=').length = 2 ∧
            stringsToLower ((stringsSplitN2 q '=').headD []) ∈
              [gs "authsource", gs "replicaset"]) →
        ((stringsSplitN2 p '=').length ≠ 2 →
          validateTXTResult (pre ++ p :: post) = .error (gs "Invalid TXT record")) ∧
        ((stringsSplitN2 p '=').length = 2 →
          stringsToLower ((stringsSplitN2 p '=').headD []) ∉
              [gs "authsource", gs "replicaset"] →
          validateTXTResult (pre ++ p :: post) =
            .error (gs "Cannot specify option '" ++ (stringsSplitN2 p '=').headD [] ++
              gs "' in TXT record"))) ∧
    (∀ (txtLookup : Except GoStr (List GoStr)) (goosWindows : Bool) (r : GoStr),
        txtRecordsAfterConcat txtLookup goosWindows = [r] →
        validateTXTResult (stringsFieldsFunc r (fun c => c == ';' || c == '&')) = .ok () →
        ResolveAdditionalQueryParametersFromTxtRecords txtLookup goosWindows =
          .ok (stringsFieldsFunc r (fun c => c == ';' || c == '&'))) := by
  refine ⟨?_, ?_, ?_⟩
  · intro params
    induction params with
    | nil => simp [validateTXTResult]
    | cons p rest ih =>
      rw [validateTXTResult]
      by_cases hlen : (stringsSplitN2 p '=').length = 2
      · rw [if_neg (not_not_intro hlen)]
        by_cases hkey : allowedTXTOptions.contains
            (stringsToLower ((stringsSplitN2 p '=').headD [])) = true
        · rw [if_pos hkey, ih]
          constructor
          · intro hall q hq
            rcases List.mem_cons.mp hq with rfl | hq'
            · exact ⟨hlen, List.elem_iff.mp hkey⟩
            · exact hall q hq'
          · intro hall q hq
            exact hall q (by simp [hq])
        · rw [if_neg hkey]
          constructor
          · intro hx; exact absurd hx (by simp)
          · intro hall
            exact absurd (List.elem_iff.mpr (hall p (by simp)).2) hkey
      · rw [if_pos hlen]
        constructor
        · intro hx; exact absurd hx (by simp)
        · intro hall
          exact absurd (hall p (by simp)).1 hlen
  · intro pre p post hpre
    have hpre' : ∀ q ∈ pre, (stringsSplitN2 q '=').length = 2 ∧
        allowedTXTOptions.contains (stringsToLower ((stringsSplitN2 q '=').headD [])) = true :=
      fun q hq => ⟨(hpre q hq).1, List.elem_iff.mpr (hpre q hq).2⟩
    rw [validateTXTResult_append_ok pre _ hpre']
    constructor
    · intro hbad
      rw [validateTXTResult, if_pos hbad]
    · intro hlen hkey
      have hkc : ¬ (allowedTXTOptions.contains
          (stringsToLower ((stringsSplitN2 p '=').headD [])) = true) :=
        fun hc => hkey (List.elem_iff.mp hc)
      rw [validateTXTResult, if_neg (not_not_intro hlen), if_neg hkc]
  · intro lk w r hone hval
    simp [ResolveAdditionalQueryParametersFromTxtRecords, hone, hval]

/-- Witness for C7 on the spec's examples: the accepted two-token record
and the rejected `ssl=true` token. -/
theorem claim_C7_witness :
    validateTXTResult [gs "authSource=admin", gs "replicaSet=rs0"] = .ok () ∧
    validateTXTResult [gs "ssl=true"] =
      .error (gs "Cannot specify option 'ssl' in TXT record") :=
  ⟨(claim_C7.1 [gs "authSource=admin", gs "replicaSet=rs0"]).mpr (by decide),
   ((claim_C7.2.1 [] (gs "ssl=true") []) (by simp)).2 (by decide) (by decide)⟩

/-! ### Analysis of the test-only removal loop -/

/-- An element of a list at an index below `n` lies in the `n`-prefix. -/
theorem getElem_mem_take {α : Type} (l : List α) (i n : Nat)
    (h1 : i < n) (h2 : i < l.length) : l[i] ∈ l.take n := by
  have ht : i < (l.take n).length := by simp [List.length_take]; omega
  have he : (l.take n)[i] = l[i] := List.getElem_take l
  exact he ▸ List.getElem_mem ht

/-- An element of a list at an index at least `n` lies in the `n`-tail. -/
theorem getElem_mem_drop {α : Type} (l : List α) (i n : Nat)
    (h1 : n ≤ i) (h2 : i < l.length) : l[i] ∈ l.drop n := by
  have hd : i - n < (l.drop n).length := by simp [List.length_drop]; omega
  have he : (l.drop n)[i - n] = l[i] := by
    rw [List.getElem_drop]
    congr 1
    omega
  exact he ▸ List.getElem_mem hd

/-- `countP` split at one position. -/
theorem countP_split_at {α : Type} (p : α → Bool) (l : List α) (i : Nat)
    (hi : i < l.length) :
    l.countP p = (l.take i).countP p + (if p l[i] then 1 else 0) +
      (l.drop (i + 1)).countP p := by
  conv_lhs => rw [← List.take_append_drop i l]
  rw [List.countP_append, List.drop_eq_getElem_cons hi, List.countP_cons]
  omega

/-- A scan stretch that meets no matching element leaves the slice
unchanged. -/
theorem removeScan_const (rm : SRVRecord) (backing : List SRVRecord) (curLen : Nat)
    (s len : Nat)
    (h : ∀ j, s ≤ j → j < s + len → srvMatch rm (backing.getD j dfltSRV) = false) :
    (List.range' s len).foldl (removeScanStep rm) (some (backing, curLen)) =
      some (backing, curLen) := by
  induction len generalizing s with
  | zero => rfl
  | succ n ih =>
    rw [List.range'_succ, List.foldl_cons]
    have hns := h s le_rfl (by omega)
    have hstep : removeScanStep rm (some (backing, curLen)) s = some (backing, curLen) := by
      simp only [removeScanStep]
      rw [if_neg (by simp only [hns]; simp)]
    rw [hstep]
    exact ih (s + 1) (fun j hj1 hj2 => h j (by omega) (by omega))

/-- Erasing the unique matching position is the same as filtering the
matches out. -/
theorem eraseIdx_eq_filter_of_unique {α : Type} (p : α → Bool) (l : List α) (i : Nat)
    (hi : i < l.length) (hpi : p l[i] = true)
    (htake : (l.take i).countP p = 0) (hdrop : (l.drop (i + 1)).countP p = 0) :
    l.eraseIdx i = l.filter (fun a => !(p a)) := by
  have h1 : (l.take i).filter (fun a => !(p a)) = l.take i :=
    List.filter_eq_self.mpr
      (fun a ha => by simp [List.countP_eq_zero.mp htake a ha])
  have h2 : (l.drop (i + 1)).filter (fun a => !(p a)) = l.drop (i + 1) :=
    List.filter_eq_self.mpr
      (fun a ha => by simp [List.countP_eq_zero.mp hdrop a ha])
  conv_rhs => rw [← List.take_append_drop i l]
  rw [List.filter_append, List.drop_eq_getElem_cons hi, List.filter_cons]
  rw [if_neg (by simp [hpi])]
  rw [h1, h2, List.eraseIdx_eq_take_drop_succ]

/-- The shifted segments `addresses[:j] ++ addresses[j+1:curLen]` form the
original slice with position `j` erased. -/
theorem AM_eq_eraseIdx (backing : List SRVRecord) (curLen i : Nat)
    (hi : i < curLen) :
    backing.take i ++ (backing.drop (i + 1)).take (curLen - 1 - i) =
      (backing.take curLen).eraseIdx i := by
  rw [List.eraseIdx_eq_take_drop_succ, List.take_take, List.drop_take]
  have h1 : i ⊓ curLen = i := by omega
  have h2 : curLen - (i + 1) = curLen - 1 - i := by omega
  rw [h1, h2]

/-- One full inner scan whose slice holds exactly one matching element, at
position `i`: the scan removes that position, leaving the stale copy of
the old last element beyond the new length. -/
theorem removeOneAddr_single (rm : SRVRecord) (backing : List SRVRecord) (curLen i : Nat)
    (hc : curLen ≤ backing.length) (hi : i < curLen)
    (hpi : srvMatch rm (backing.getD i dfltSRV) = true)
    (htake0 : ((backing.take curLen).take i).countP (fun a => srvMatch rm a) = 0)
    (hdrop0 : ((backing.take curLen).drop (i + 1)).countP (fun a => srvMatch rm a) = 0) :
    removeOneAddr rm (backing, curLen) =
      some ((backing.take curLen).eraseIdx i ++ backing.drop (curLen - 1),
            curLen - 1) := by
  have hcur : (backing.take curLen).length = curLen := by simp [List.length_take]; omega
  have hElen : ((backing.take curLen).eraseIdx i).length = curLen - 1 := by
    rw [List.length_eraseIdx, if_pos (by omega), hcur]
  show (List.range curLen).foldl (removeScanStep rm) (some (backing, curLen)) = _
  rw [List.range_eq_range']
  have hsplit1 : List.range' 0 curLen = List.range' 0 i ++ List.range' i (curLen - i) := by
    have h := List.range'_append 0 i (curLen - i) 1
    simp only [Nat.zero_add, Nat.one_mul] at h
    rw [Nat.sub_add_cancel (Nat.le_of_lt hi)] at h
    exact h.symm
  rw [hsplit1, List.foldl_append]
  have htt : (backing.take curLen).take i = backing.take i := by
    rw [List.take_take]
    have : i ⊓ curLen = i := by omega
    rw [this]
  rw [removeScan_const rm backing curLen 0 i (fun j hj0 hj => by
    have hji : j < i := by omega
    have hjb : j < backing.length := by omega
    rw [List.getD_eq_getElem _ _ hjb]
    have hmem : backing[j] ∈ (backing.take curLen).take i := by
      rw [htt]
      exact getElem_mem_take backing j i hji hjb
    exact Bool.eq_false_iff.mpr (List.countP_eq_zero.mp htake0 _ hmem))]
  have hsplit2 : List.range' i (curLen - i) = i :: List.range' (i + 1) (curLen - 1 - i) := by
    have harith : curLen - i = (curLen - 1 - i) + 1 := by omega
    rw [harith, List.range'_succ]
  rw [hsplit2, List.foldl_cons]
  have hstep : removeScanStep rm (some (backing, curLen)) i =
      some (backing.take i ++ (backing.drop (i + 1)).take (curLen - 1 - i) ++
              backing.drop (curLen - 1), curLen - 1) := by
    simp only [removeScanStep]
    rw [if_pos hpi, if_pos (by omega : i + 1 ≤ curLen)]
  rw [hstep, AM_eq_eraseIdx backing curLen i hi]
  -- the remaining stretch meets no matching element
  apply removeScan_const
  intro j hj1 hj2
  have hjc : j < curLen := by omega
  have hij : i < j := by omega
  have hjET : j < ((backing.take curLen).eraseIdx i ++ backing.drop (curLen - 1)).length := by
    simp [List.length_append, hElen, List.length_drop]; omega
  rw [List.getD_eq_getElem _ dfltSRV hjET]
  have hE0 : ((backing.take curLen).eraseIdx i).countP (fun a => srvMatch rm a) = 0 := by
    rw [List.eraseIdx_eq_take_drop_succ, List.countP_append, htake0, hdrop0]
  rcases Nat.lt_or_ge j (curLen - 1) with hlt | hge
  · -- j reads an element of the erased slice
    have hjE : j < ((backing.take curLen).eraseIdx i).length := by omega
    have he : ((backing.take curLen).eraseIdx i ++ backing.drop (curLen - 1))[j] =
        ((backing.take curLen).eraseIdx i)[j] := by
      rw [List.getElem_append, dif_pos hjE]
    rw [he]
    exact Bool.eq_false_iff.mpr (List.countP_eq_zero.mp hE0 _ (List.getElem_mem hjE))
  · -- j = curLen - 1 reads the stale copy of the old last element
    have hc1b : curLen - 1 < backing.length := by omega
    have hd0 : j - ((backing.take curLen).eraseIdx i).length <
        (backing.drop (curLen - 1)).length := by
      simp [List.length_drop]; omega
    have he : ((backing.take curLen).eraseIdx i ++ backing.drop (curLen - 1))[j] =
        backing[curLen - 1] := by
      rw [List.getElem_append, dif_neg (by omega)]
      rw [List.getElem_drop]
      congr 1
      omega
    rw [he]
    have hbt : (backing.take curLen)[curLen - 1] = backing[curLen - 1] := by
      have hcb : curLen - 1 < (backing.take curLen).length := by omega
      exact List.getElem_take backing
    have hmem : backing[curLen - 1] ∈ (backing.take curLen).drop (i + 1) := by
      rw [← hbt]
      exact getElem_mem_drop (backing.take curLen) (curLen - 1) (i + 1) (by omega) (by omega)
    exact Bool.eq_false_iff.mpr (List.countP_eq_zero.mp hdrop0 _ hmem)

/-- One inner scan over a slice holding at most one matching element
succeeds (no panic) and filters the matches out of the slice. -/
theorem removeOneAddr_spec (rm : SRVRecord) (backing : List SRVRecord) (curLen : Nat)
    (hc : curLen ≤ backing.length)
    (h1 : (backing.take curLen).countP (fun a => srvMatch rm a) ≤ 1) :
    ∃ b' c', removeOneAddr rm (backing, curLen) = some (b', c') ∧ c' ≤ b'.length ∧
      b'.take c' = (backing.take curLen).filter (fun a => !(srvMatch rm a)) := by
  have hcur : (backing.take curLen).length = curLen := by simp [List.length_take]; omega
  rcases Nat.eq_zero_or_pos ((backing.take curLen).countP (fun a => srvMatch rm a)) with
    h0 | hpos
  · have hnom : ∀ a ∈ backing.take curLen, ¬ (srvMatch rm a = true) :=
      List.countP_eq_zero.mp h0
    refine ⟨backing, curLen, ?_, hc, ?_⟩
    · show (List.range curLen).foldl (removeScanStep rm) (some (backing, curLen)) = _
      rw [List.range_eq_range']
      apply removeScan_const
      intro j hj0 hj
      have hjc : j < curLen := by omega
      have hjb : j < backing.length := by omega
      rw [List.getD_eq_getElem _ _ hjb]
      exact Bool.eq_false_iff.mpr (hnom _ (getElem_mem_take backing j curLen hjc hjb))
    · exact (List.filter_eq_self.mpr (fun a ha => by simp [hnom a ha])).symm
  · obtain ⟨a, hamem, hpa⟩ := List.countP_pos_iff.mp hpos
    obtain ⟨i, hilt, hieq⟩ := List.mem_iff_getElem.mp hamem
    have hicur : i < curLen := by omega
    have hib : i < backing.length := by omega
    have hpicur : srvMatch rm ((backing.take curLen)[i]) = true := by
      rw [hieq]; exact hpa
    have hsplit := countP_split_at (fun a => srvMatch rm a) (backing.take curLen) i hilt
    rw [if_pos hpicur] at hsplit
    have htake0 : ((backing.take curLen).take i).countP (fun a => srvMatch rm a) = 0 := by
      omega
    have hdrop0 : ((backing.take curLen).drop (i + 1)).countP (fun a => srvMatch rm a) = 0 := by
      omega
    have hpi : srvMatch rm (backing.getD i dfltSRV) = true := by
      rw [List.getD_eq_getElem _ _ hib]
      have hbt : (backing.take curLen)[i] = backing[i] := List.getElem_take backing
      rw [← hbt]
      exact hpicur
    have hElen : ((backing.take curLen).eraseIdx i).length = curLen - 1 := by
      rw [List.length_eraseIdx, if_pos (by omega), hcur]
    refine ⟨_, _, removeOneAddr_single rm backing curLen i hc hicur hpi htake0 hdrop0,
      ?_, ?_⟩
    · rw [List.length_append, hElen, List.length_drop]; omega
    · rw [← hElen, List.take_left]
      exact eraseIdx_eq_filter_of_unique (fun a => srvMatch rm a) (backing.take curLen) i
        hilt hpicur htake0 hdrop0

/-- The outer removal fold over a list of removal records, each matching
at most one element of the current slice, filters out all matches. -/
theorem removalFold_spec (removes : List SRVRecord) (backing : List SRVRecord)
    (curLen : Nat) (hc : curLen ≤ backing.length)
    (hcount : ∀ rm ∈ removes, (backing.take curLen).countP (fun a => srvMatch rm a) ≤ 1) :
    ∃ b' c', removes.foldl (fun st removeAddr => st.bind (removeOneAddr removeAddr))
        (some (backing, curLen)) = some (b', c') ∧ c' ≤ b'.length ∧
      b'.take c' = (backing.take curLen).filter
        (fun a => !(removes.any (fun rm => srvMatch rm a))) := by
  induction removes generalizing backing curLen with
  | nil => exact ⟨backing, curLen, rfl, hc, by simp⟩
  | cons rm rest ih =>
    obtain ⟨b1, c1, h1, hlen1, htake1⟩ :=
      removeOneAddr_spec rm backing curLen hc (hcount rm (by simp))
    rw [List.foldl_cons, Option.some_bind, h1]
    obtain ⟨b2, c2, h2, hlen2, htake2⟩ := ih b1 c1 hlen1 (fun rm' hrm' => by
      rw [htake1]
      calc ((backing.take curLen).filter (fun a => !(srvMatch rm a))).countP
            (fun a => srvMatch rm' a) ≤
          (backing.take curLen).countP (fun a => srvMatch rm' a) :=
            (List.filter_sublist _).countP_le _
        _ ≤ 1 := hcount rm' (by simp [hrm']))
    refine ⟨b2, c2, h2, hlen2, ?_⟩
    rw [htake2, htake1, List.filter_filter]
    congr 1
    funext a
    simp [List.any_cons, Bool.not_or, Bool.and_comm]

/-- `applyRemovals` on a record list in which every removal record matches
at most one entry removes exactly the matching entries (and does not
panic). -/
theorem applyRemovals_spec (removes addresses : List SRVRecord)
    (hcount : ∀ rm ∈ removes, addresses.countP (fun a => srvMatch rm a) ≤ 1) :
    applyRemovals removes addresses =
      some (addresses.filter (fun a => !(removes.any (fun rm => srvMatch rm a)))) := by
  obtain ⟨b', c', hfold, hlen, htake⟩ :=
    removalFold_spec removes addresses addresses.length le_rfl
      (by simpa [List.take_length] using hcount)
  rw [List.take_length] at htake
  unfold applyRemovals
  rw [hfold]
  exact congrArg some htake

/-- Claim C4 (amended): the test-only mutation appends `RecordsToAdd` to
the looked-up records, then — provided each entry of `RecordsToRemove`
matches at most one entry of the appended list by (target, port) —
removes exactly the matching entries; removing an absent record is a
no-op, not an error.  (Without that uniqueness proviso the in-place
removal loop can skip duplicate matches or panic; see the
counterexample.) -/
theorem claim_C4 : ∀ (d : DnsResolver) (lookupAddrs : List SRVRecord),
    (∀ rm ∈ d.RecordsToRemove,
        (lookupAddrs ++ d.RecordsToAdd).countP (fun a => srvMatch rm a) ≤ 1) →
    applyRemovals d.RecordsToRemove (lookupAddrs ++ d.RecordsToAdd) =
      some ((lookupAddrs ++ d.RecordsToAdd).filter
        (fun a => !(d.RecordsToRemove.any (fun rm => srvMatch rm a)))) :=
  fun d lookupAddrs h => applyRemovals_spec d.RecordsToRemove (lookupAddrs ++ d.RecordsToAdd) h

/-- Counterexample to C4 as stated: with two identical looked-up records
both matching the single removal record, the loop removes only one of
them (the second is skipped when the slice shifts), so not every matching
entry is removed. -/
theorem claim_C4_counterexample :
    applyRemovals [⟨gs "a.example.com.", 27017, 0, 0⟩]
        (([⟨gs "a.example.com.", 27017, 0, 0⟩, ⟨gs "a.example.com.", 27017, 0, 0⟩,
          ⟨gs "b.example.com.", 27017, 0, 0⟩] : List SRVRecord) ++ []) ≠
      some ((([⟨gs "a.example.com.", 27017, 0, 0⟩, ⟨gs "a.example.com.", 27017, 0, 0⟩,
          ⟨gs "b.example.com.", 27017, 0, 0⟩] : List SRVRecord) ++ []).filter
        (fun a => !(([⟨gs "a.example.com.", 27017, 0, 0⟩] : List SRVRecord).any
          (fun rm => srvMatch rm a)))) := by
  decide

/-- Witness for C4: one matching record is removed, a removal record
absent from the list is a no-op. -/
theorem claim_C4_witness :
    applyRemovals [⟨gs "a.example.com.", 27017, 0, 0⟩, ⟨gs "absent.example.com.", 1, 0, 0⟩]
        (([⟨gs "a.example.com.", 27017, 0, 0⟩, ⟨gs "b.example.com.", 27017, 0, 0⟩] :
          List SRVRecord) ++ []) =
      some ((([⟨gs "a.example.com.", 27017, 0, 0⟩, ⟨gs "b.example.com.", 27017, 0, 0⟩] :
          List SRVRecord) ++ []).filter
        (fun a => !(([⟨gs "a.example.com.", 27017, 0, 0⟩,
            ⟨gs "absent.example.com.", 1, 0, 0⟩] : List SRVRecord).any
          (fun rm => srvMatch rm a)))) :=
  claim_C4
    ⟨[], [⟨gs "a.example.com.", 27017, 0, 0⟩, ⟨gs "absent.example.com.", 1, 0, 0⟩], 0⟩
    [⟨gs "a.example.com.", 27017, 0, 0⟩, ⟨gs "b.example.com.", 27017, 0, 0⟩]
    (by decide)
